import Mathlib

/-!
Shallow embedding of the core of `superbot.py` (a Telegram article-search
bot): the round-robin link merge of `find_handler`, site extraction
(`search_links`), article fetching (`fetch_article`), summarization
(`get_ai_summary` / `summarize_texts`), the response cache
(`save_cache` / `load_cache`), the subscription sweep
(`check_subscriptions`) and the user site list (`reset_user_sites`).

External effects (HTTP, HTML parsing, the OpenAI service, SQLite, the
newspaper3k library, the system clock) are modelled as explicit inputs;
everything the Python code computes from those inputs is translated
directly from the source.
-/

namespace SuperBot

/-! ### Round-robin merge (`find_handler`, superbot.py lines 420-433) -/

/-- One pass of the inner `for site_links in site_results` loop: for each
source list in order, if the current column `idx` exists, append that link;
`added` records whether anything was appended; the pass breaks as soon as
the cap is reached (the `if len(all_links) >= max_links: break`). -/
def mergePass (cap : Nat) (idx : Nat) :
    List (List String) → List String → Bool → List String × Bool
  | [], acc, added => (acc, added)
  | l :: rest, acc, added =>
    match l[idx]? with
    | none => mergePass cap idx rest acc added
    | some x =>
      if cap ≤ (acc ++ [x]).length then (acc ++ [x], true)
      else mergePass cap idx rest (acc ++ [x]) true

/-- The `while len(all_links) < max_links` loop (superbot.py lines 423-433).
`fuel` bounds the number of passes; the source loop terminates because a
pass at a column beyond every list's length appends nothing, so
`maxLen cols + 1` passes always suffice (established by
`mergeLoop_spec`). -/
def mergeLoop (cols : List (List String)) (cap : Nat) :
    Nat → Nat → List String → List String
  | 0, _, acc => acc
  | fuel + 1, idx, acc =>
    if cap ≤ acc.length then acc
    else
      match mergePass cap idx cols acc false with
      | (acc', true) => mergeLoop cols cap fuel (idx + 1) acc'
      | (acc', false) => acc'

/-- Length of the longest per-source list. -/
def maxLen (cols : List (List String)) : Nat :=
  cols.foldr (fun l m => Nat.max l.length m) 0

/-- The candidate list `all_links` built by `find_handler`
(superbot.py lines 420-433) from the per-source link lists, with
`max_links = 5`. -/
def mergeLinks (cols : List (List String)) : List String :=
  mergeLoop cols 5 (maxLen cols + 1) 0 []

/-- Specification-side description of a round-robin interleave: each pass
takes the head of every nonempty source list (in source order), then
recurses on the tails; `fuel` bounds the recursion depth. -/
def rrColumnsF : Nat → List (List String) → List String
  | 0, _ => []
  | fuel + 1, cols =>
    let heads := cols.filterMap List.head?
    if heads.isEmpty then [] else heads ++ rrColumnsF fuel (cols.map List.tail)

/-- Full round-robin interleaving of the per-source lists. -/
def rrColumns (cols : List (List String)) : List String :=
  rrColumnsF (maxLen cols) cols

theorem maxLen_cons (l : List String) (cols : List (List String)) :
    maxLen (l :: cols) = Nat.max l.length (maxLen cols) := rfl

theorem length_le_maxLen {l : List String} {cols : List (List String)}
    (h : l ∈ cols) : l.length ≤ maxLen cols := by
  induction cols with
  | nil => cases h
  | cons c rest ih =>
    rcases List.mem_cons.mp h with rfl | h'
    · exact Nat.le_max_left _ _
    · exact Nat.le_trans (ih h') (Nat.le_max_right _ _)

theorem maxLen_map_tail_le (cols : List (List String)) :
    maxLen (cols.map List.tail) ≤ maxLen cols - 1 := by
  induction cols with
  | nil => simp [maxLen]
  | cons c rest ih =>
    simp only [List.map_cons, maxLen_cons]
    apply Nat.max_le.mpr
    constructor
    · have hc : c.tail.length = c.length - 1 := by simp [List.length_tail]
      rw [hc]
      exact Nat.sub_le_sub_right (Nat.le_max_left _ _) 1
    · exact Nat.le_trans ih (Nat.sub_le_sub_right (Nat.le_max_right _ _) 1)

theorem eq_nil_of_maxLen_eq_zero {cols : List (List String)}
    (h : maxLen cols = 0) : ∀ l ∈ cols, l = [] := by
  intro l hl
  have := length_le_maxLen hl
  rw [h] at this
  exact List.eq_nil_of_length_eq_zero (Nat.le_zero.mp this)

theorem heads_eq_nil_iff (cols : List (List String)) :
    cols.filterMap List.head? = [] ↔ ∀ l ∈ cols, l = [] := by
  rw [List.filterMap_eq_nil_iff]
  constructor
  · intro h l hl
    have := h l hl
    cases l with
    | nil => rfl
    | cons x xs => simp at this
  · intro h l hl
    rw [h l hl]; rfl

theorem maxLen_pos_of_heads_ne_nil {cols : List (List String)}
    (h : cols.filterMap List.head? ≠ []) : 1 ≤ maxLen cols := by
  by_contra hlt
  have h0 : maxLen cols = 0 := by omega
  exact h ((heads_eq_nil_iff cols).mpr (eq_nil_of_maxLen_eq_zero h0))

theorem rrColumnsF_succ (fuel : Nat) (cols : List (List String)) :
    rrColumnsF (fuel + 1) cols =
      if (cols.filterMap List.head?).isEmpty then []
      else cols.filterMap List.head? ++ rrColumnsF fuel (cols.map List.tail) :=
  rfl

/-- `rrColumnsF` is insensitive to any fuel at least `maxLen`. -/
theorem rrColumnsF_congr :
    ∀ (f₁ f₂ : Nat) (cols : List (List String)),
      maxLen cols ≤ f₁ → maxLen cols ≤ f₂ →
      rrColumnsF f₁ cols = rrColumnsF f₂ cols := by
  intro f₁
  induction f₁ with
  | zero =>
    intro f₂ cols h₁ h₂
    have h0 : maxLen cols = 0 := Nat.le_zero.mp h₁
    have hnil : cols.filterMap List.head? = [] :=
      (heads_eq_nil_iff cols).mpr (eq_nil_of_maxLen_eq_zero h0)
    cases f₂ with
    | zero => rfl
    | succ f => rw [rrColumnsF_succ, hnil]; simp [rrColumnsF]
  | succ f ih =>
    intro f₂ cols h₁ h₂
    cases f₂ with
    | zero =>
      have h0 : maxLen cols = 0 := Nat.le_zero.mp h₂
      have hnil : cols.filterMap List.head? = [] :=
        (heads_eq_nil_iff cols).mpr (eq_nil_of_maxLen_eq_zero h0)
      rw [rrColumnsF_succ, hnil]; simp [rrColumnsF]
    | succ f' =>
      rw [rrColumnsF_succ, rrColumnsF_succ]
      by_cases hh : (cols.filterMap List.head?).isEmpty
      · simp [hh]
      · simp only [hh, if_false]
        have hne : cols.filterMap List.head? ≠ [] := by
          simpa [List.isEmpty_iff] using hh
        have hpos := maxLen_pos_of_heads_ne_nil hne
        have htail := maxLen_map_tail_le cols
        exact congrArg (fun t => cols.filterMap List.head? ++ t)
          (ih f' (cols.map List.tail)
            (Nat.le_trans htail (by omega)) (Nat.le_trans htail (by omega)))

theorem rrColumns_of_heads_ne_nil {cols : List (List String)}
    (h : cols.filterMap List.head? ≠ []) :
    rrColumns cols =
      cols.filterMap List.head? ++ rrColumns (cols.map List.tail) := by
  have hpos := maxLen_pos_of_heads_ne_nil h
  have htail := maxLen_map_tail_le cols
  have hh : (cols.filterMap List.head?).isEmpty = false := by
    simpa [List.isEmpty_iff] using h
  show rrColumnsF (maxLen cols) cols =
    cols.filterMap List.head? ++
      rrColumnsF (maxLen (cols.map List.tail)) (cols.map List.tail)
  obtain ⟨m, hm⟩ : ∃ m, maxLen cols = m + 1 := ⟨maxLen cols - 1, by omega⟩
  rw [hm, rrColumnsF_succ]
  simp only [hh, if_false]
  exact congrArg (fun t => cols.filterMap List.head? ++ t)
    (rrColumnsF_congr m (maxLen (cols.map List.tail)) (cols.map List.tail)
      (by omega) (Nat.le_refl _))

theorem rrColumns_of_heads_eq_nil {cols : List (List String)}
    (h : cols.filterMap List.head? = []) : rrColumns cols = [] := by
  unfold rrColumns
  cases hm : maxLen cols with
  | zero => rfl
  | succ m => rw [rrColumnsF_succ, h]; simp

theorem take_append_take {α : Type} (x y : List α) (n : Nat) :
    (x.take n ++ y).take n = (x ++ y).take n := by
  induction x generalizing n with
  | nil => simp
  | cons a xs ih =>
    cases n with
    | zero => simp
    | succ n => simp [List.cons_append, ih]

/-- One pass of the merge loop, starting below the cap, appends the heads of
the source lists up to the cap; it reports `added = true` iff some list was
nonempty. -/
theorem mergePass_spec (cap : Nat) :
    ∀ (cols : List (List String)) (acc : List String) (added : Bool),
      acc.length < cap →
      mergePass cap 0 cols acc added =
        ((acc ++ cols.filterMap List.head?).take cap,
         added || !(cols.filterMap List.head?).isEmpty) := by
  intro cols
  induction cols with
  | nil =>
    intro acc added h
    simp [mergePass, List.take_of_length_le (Nat.le_of_lt h)]
  | cons l rest ih =>
    intro acc added h
    cases l with
    | nil =>
      have hfm : List.filterMap List.head? (([] : List String) :: rest) =
          List.filterMap List.head? rest := rfl
      have hstep : mergePass cap 0 (([] : List String) :: rest) acc added =
          mergePass cap 0 rest acc added := rfl
      rw [hfm, hstep]
      exact ih acc added h
    | cons x xs =>
      have hhd : (x :: xs).head? = some x := rfl
      simp only [mergePass, List.getElem?_cons_zero,
        List.filterMap_cons_some hhd]
      by_cases hc : cap ≤ (acc ++ [x]).length
      · have hcap : cap = (acc ++ [x]).length := by
          simp only [List.length_append, List.length_cons, List.length_nil] at hc ⊢
          omega
        simp only [hc, if_true]
        have hgl : acc ++ x :: rest.filterMap List.head? =
            (acc ++ [x]) ++ rest.filterMap List.head? := by simp
        rw [hgl, hcap, List.take_left]
        simp
      · have hlt : (acc ++ [x]).length < cap := Nat.lt_of_not_le hc
        simp only [hc, if_false]
        rw [ih (acc ++ [x]) true hlt]
        simp

theorem mergePass_shift (cap idx : Nat) :
    ∀ (cols : List (List String)) (acc : List String) (added : Bool),
      mergePass cap idx cols acc added =
        mergePass cap 0 (cols.map (List.drop idx)) acc added := by
  intro cols
  induction cols with
  | nil => intro acc added; rfl
  | cons l rest ih =>
    intro acc added
    have hget : l[idx]? = (l.drop idx)[0]? := by
      rw [List.getElem?_drop, Nat.add_zero]
    simp only [mergePass, List.map_cons, hget]
    cases (l.drop idx)[0]? with
    | none => exact ih acc added
    | some x =>
      show (if cap ≤ (acc ++ [x]).length then (acc ++ [x], true)
            else mergePass cap idx rest (acc ++ [x]) true) =
        (if cap ≤ (acc ++ [x]).length then (acc ++ [x], true)
         else mergePass cap 0 (List.map (List.drop idx) rest) (acc ++ [x]) true)
      by_cases hc : cap ≤ (acc ++ [x]).length
      · rw [if_pos hc, if_pos hc]
      · rw [if_neg hc, if_neg hc]
        exact ih (acc ++ [x]) true

theorem mergeLoop_shift (cap : Nat) :
    ∀ (fuel idx : Nat) (cols : List (List String)) (acc : List String),
      mergeLoop cols cap fuel idx acc =
        mergeLoop (cols.map (List.drop idx)) cap fuel 0 acc := by
  intro fuel
  induction fuel with
  | zero => intros; rfl
  | succ f ih =>
    intro idx cols acc
    simp only [mergeLoop]
    by_cases hc : cap ≤ acc.length
    · simp [hc]
    · simp only [hc, if_false]
      rw [mergePass_shift cap idx cols acc false]
      rcases hp : mergePass cap 0 (cols.map (List.drop idx)) acc false
        with ⟨acc', added⟩
      cases added with
      | false => rfl
      | true =>
        show mergeLoop cols cap f (idx + 1) acc' =
          mergeLoop (cols.map (List.drop idx)) cap f 1 acc'
        rw [ih (idx + 1) cols acc', ih 1 (cols.map (List.drop idx)) acc']
        rw [List.map_map]
        have hdd : cols.map (List.drop 1 ∘ List.drop idx) =
            cols.map (List.drop (idx + 1)) :=
          List.map_congr_left fun l _ => List.drop_drop 1 idx l
        rw [hdd]

/-- The merge loop started at column 0 with enough fuel computes the
cap-truncation of the full round-robin interleave. -/
theorem mergeLoop_spec (cap : Nat) :
    ∀ (fuel : Nat) (cols : List (List String)) (acc : List String),
      acc.length ≤ cap → maxLen cols ≤ fuel →
      mergeLoop cols cap fuel 0 acc = (acc ++ rrColumns cols).take cap := by
  intro fuel
  induction fuel with
  | zero =>
    intro cols acc hacc hfuel
    have h0 : maxLen cols = 0 := Nat.le_zero.mp hfuel
    have hnil : cols.filterMap List.head? = [] :=
      (heads_eq_nil_iff cols).mpr (eq_nil_of_maxLen_eq_zero h0)
    rw [rrColumns_of_heads_eq_nil hnil]
    simp [mergeLoop, List.take_of_length_le hacc]
  | succ f ih =>
    intro cols acc hacc hfuel
    simp only [mergeLoop]
    by_cases hc : cap ≤ acc.length
    · have hceq : acc.length = cap := Nat.le_antisymm hacc hc
      simp only [hc, if_true]
      rw [← hceq]
      exact (List.take_left acc _).symm
    · have hlt : acc.length < cap := Nat.lt_of_not_le hc
      simp only [hc, if_false]
      rw [mergePass_spec cap cols acc false hlt]
      by_cases hh : (cols.filterMap List.head?).isEmpty
      · have hnil : cols.filterMap List.head? = [] := List.isEmpty_iff.mp hh
        rw [rrColumns_of_heads_eq_nil hnil, hnil]
        simp [List.take_of_length_le (Nat.le_of_lt hlt)]
      · have hne : cols.filterMap List.head? ≠ [] := by
          simpa [List.isEmpty_iff] using hh
        have hB : (false || !(cols.filterMap List.head?).isEmpty) = true := by
          simp [hh]
        rw [hB]
        show mergeLoop cols cap f 1
            ((acc ++ cols.filterMap List.head?).take cap) =
          (acc ++ rrColumns cols).take cap
        rw [mergeLoop_shift cap f 1 cols]
        have hmt : cols.map (List.drop 1) = cols.map List.tail :=
          List.map_congr_left fun l _ => List.drop_one l
        rw [hmt]
        have hacc' :
            ((acc ++ cols.filterMap List.head?).take cap).length ≤ cap := by
          simp [List.length_take]
        have hpos := maxLen_pos_of_heads_ne_nil hne
        have htail := maxLen_map_tail_le cols
        rw [ih (cols.map List.tail) _ hacc' (by omega)]
        rw [take_append_take, List.append_assoc, ← rrColumns_of_heads_ne_nil hne]

/-- The merge of `find_handler` is the cap-5 truncation of the round-robin
interleave of the per-source lists. -/
theorem mergeLinks_eq (cols : List (List String)) :
    mergeLinks cols = (rrColumns cols).take 5 := by
  unfold mergeLinks
  rw [mergeLoop_spec 5 (maxLen cols + 1) cols [] (by simp) (by omega)]
  simp

/-- Peeling one round-robin pass off the flattening is a permutation. -/
theorem flatten_perm_heads_tails :
    ∀ cols : List (List String),
      cols.flatten.Perm
        (cols.filterMap List.head? ++ (cols.map List.tail).flatten) := by
  intro cols
  induction cols with
  | nil => simp
  | cons l rest ih =>
    cases l with
    | nil => simpa using ih
    | cons x xs =>
      have hfl : ((x :: xs) :: rest).flatten = x :: (xs ++ rest.flatten) := rfl
      have hfm : List.filterMap List.head? ((x :: xs) :: rest) =
          x :: List.filterMap List.head? rest := rfl
      have ht : (((x :: xs) :: rest).map List.tail).flatten =
          xs ++ (rest.map List.tail).flatten := rfl
      rw [hfl, hfm, ht, List.cons_append]
      apply List.Perm.cons
      refine (List.Perm.append_left xs ih).trans ?_
      rw [← List.append_assoc]
      have hcomm :=
        (@List.perm_append_comm String xs
          (List.filterMap List.head? rest)).append_right
          ((rest.map List.tail).flatten)
      simpa [List.append_assoc] using hcomm

theorem rrColumnsF_perm_flatten :
    ∀ (fuel : Nat) (cols : List (List String)), maxLen cols ≤ fuel →
      (rrColumnsF fuel cols).Perm cols.flatten := by
  intro fuel
  induction fuel with
  | zero =>
    intro cols h
    have hall := eq_nil_of_maxLen_eq_zero (Nat.le_zero.mp h)
    have hfl : cols.flatten = [] := List.flatten_eq_nil_iff.mpr hall
    simp [rrColumnsF, hfl]
  | succ f ih =>
    intro cols h
    rw [rrColumnsF_succ]
    by_cases hh : (cols.filterMap List.head?).isEmpty
    · have hall := (heads_eq_nil_iff cols).mp (List.isEmpty_iff.mp hh)
      have hfl : cols.flatten = [] := List.flatten_eq_nil_iff.mpr hall
      simp [hh, hfl]
    · simp only [hh, if_false]
      have hne : cols.filterMap List.head? ≠ [] := by
        simpa [List.isEmpty_iff] using hh
      have hpos := maxLen_pos_of_heads_ne_nil hne
      have htail := maxLen_map_tail_le cols
      have ih' := ih (cols.map List.tail) (by omega)
      exact (List.Perm.append_left _ ih').trans
        (flatten_perm_heads_tails cols).symm

theorem rrColumns_perm_flatten (cols : List (List String)) :
    (rrColumns cols).Perm cols.flatten :=
  rrColumnsF_perm_flatten (maxLen cols) cols (Nat.le_refl _)

/-- The merged candidate list has length `min 5 (total links available)`. -/
theorem mergeLinks_length (cols : List (List String)) :
    (mergeLinks cols).length = min 5 (cols.map List.length).sum := by
  rw [mergeLinks_eq, List.length_take,
    (rrColumns_perm_flatten cols).length_eq, List.length_flatten]

theorem mem_of_mem_heads {z : String} {cols : List (List String)}
    (h : z ∈ cols.filterMap List.head?) : z ∈ cols.flatten := by
  obtain ⟨l, hl, hz⟩ := List.mem_filterMap.mp h
  exact List.mem_flatten.mpr ⟨l, hl, List.mem_of_mem_head? (by rw [hz]; rfl)⟩

theorem filter_take_exists {α : Type} (p : α → Bool) :
    ∀ (l : List α) (n : Nat),
      ∃ k, (l.take n).filter p = (l.filter p).take k := by
  intro l
  induction l with
  | nil => intro n; exact ⟨0, by simp⟩
  | cons x xs ih =>
    intro n
    cases n with
    | zero => exact ⟨0, by simp⟩
    | succ n =>
      obtain ⟨k, hk⟩ := ih n
      by_cases hp : p x
      · exact ⟨k + 1, by simp [List.take_succ_cons, List.filter_cons, hp, hk]⟩
      · exact ⟨k, by simp [List.take_succ_cons, List.filter_cons, hp, hk]⟩

/-- Within one pass, the only head that belongs to the source `tgt` is the
head of `tgt` itself (all per-source lists being globally duplicate-free). -/
theorem heads_filter_eq :
    ∀ {cols : List (List String)} {tgt : List String},
      tgt ∈ cols → cols.flatten.Nodup →
      (cols.filterMap List.head?).filter (fun x => decide (x ∈ tgt)) =
        tgt.take 1 := by
  intro cols
  induction cols with
  | nil => intro tgt hmem; cases hmem
  | cons l rest ih =>
    intro tgt hmem hnd
    rw [List.flatten_cons, List.nodup_append] at hnd
    obtain ⟨hndl, hndrest, hdisj⟩ := hnd
    rcases List.mem_cons.mp hmem with rfl | hmem'
    · cases tgt with
      | nil =>
        have hfm : List.filterMap List.head? (([] : List String) :: rest) =
            List.filterMap List.head? rest := rfl
        rw [hfm]
        apply List.filter_eq_nil_iff.mpr
        intro z hz
        simp
      | cons y ys =>
        have hfm : List.filterMap List.head? ((y :: ys) :: rest) =
            y :: List.filterMap List.head? rest := rfl
        rw [hfm, List.filter_cons]
        have hpy : decide (y ∈ y :: ys) = true := by simp
        rw [if_pos hpy]
        have hrest0 :
            (List.filterMap List.head? rest).filter
              (fun x => decide (x ∈ y :: ys)) = [] := by
          apply List.filter_eq_nil_iff.mpr
          intro z hz
          have hzf : z ∈ rest.flatten := mem_of_mem_heads hz
          simp only [decide_eq_true_eq]
          intro hzt
          exact hdisj hzt hzf
        rw [hrest0]
        simp
    · have hsub : ∀ a ∈ tgt, a ∈ rest.flatten := by
        intro a ha
        exact List.mem_flatten.mpr ⟨tgt, hmem', ha⟩
      cases l with
      | nil =>
        have hfm : List.filterMap List.head? (([] : List String) :: rest) =
            List.filterMap List.head? rest := rfl
        rw [hfm]
        exact ih hmem' hndrest
      | cons y ys =>
        have hfm : List.filterMap List.head? ((y :: ys) :: rest) =
            y :: List.filterMap List.head? rest := rfl
        rw [hfm, List.filter_cons]
        have hpy : ¬ (decide (y ∈ tgt) = true) := by
          simp only [decide_eq_true_eq]
          intro hyt
          exact hdisj (List.mem_cons_self y ys) (hsub y hyt)
        rw [if_neg hpy]
        exact ih hmem' hndrest

/-- Restricted to the links of one source, the full round-robin interleave
is exactly that source's list (in order). -/
theorem rrColumnsF_filter_eq :
    ∀ (fuel : Nat) (cols : List (List String)) (tgt : List String),
      maxLen cols ≤ fuel → tgt ∈ cols → cols.flatten.Nodup →
      (rrColumnsF fuel cols).filter (fun x => decide (x ∈ tgt)) = tgt := by
  intro fuel
  induction fuel with
  | zero =>
    intro cols tgt h hmem hnd
    have hall := eq_nil_of_maxLen_eq_zero (Nat.le_zero.mp h)
    have htgt : tgt = [] := hall tgt hmem
    simp [rrColumnsF, htgt]
  | succ f ih =>
    intro cols tgt h hmem hnd
    rw [rrColumnsF_succ]
    by_cases hh : (cols.filterMap List.head?).isEmpty
    · have hall := (heads_eq_nil_iff cols).mp (List.isEmpty_iff.mp hh)
      have htgt : tgt = [] := hall tgt hmem
      simp [hh, htgt]
    · rw [if_neg hh, List.filter_append]
      have hne : cols.filterMap List.head? ≠ [] := by
        simpa [List.isEmpty_iff] using hh
      rw [heads_filter_eq hmem hnd]
      have hpos := maxLen_pos_of_heads_ne_nil hne
      have htail := maxLen_map_tail_le cols
      have htmem : tgt.tail ∈ cols.map List.tail :=
        List.mem_map_of_mem List.tail hmem
      have hndt : (cols.map List.tail).flatten.Nodup := by
        have hperm := flatten_perm_heads_tails cols
        have hnd' := (hperm.nodup_iff).mp hnd
        exact (List.nodup_append.mp hnd').2.1
      have hpair : List.Pairwise List.Disjoint cols :=
        (List.nodup_flatten.mp hnd).2
      have hcong :
          (rrColumnsF f (cols.map List.tail)).filter
              (fun x => decide (x ∈ tgt)) =
            (rrColumnsF f (cols.map List.tail)).filter
              (fun x => decide (x ∈ tgt.tail)) := by
        apply List.filter_congr
        intro x hx
        have hxf : x ∈ (cols.map List.tail).flatten :=
          (rrColumnsF_perm_flatten f (cols.map List.tail)
            (by omega)).mem_iff.mp hx
        simp only [decide_eq_decide]
        constructor
        · intro hxt
          obtain ⟨t, hmt, hxint⟩ := List.mem_flatten.mp hxf
          obtain ⟨l, hlc, rfl⟩ := List.mem_map.mp hmt
          by_cases hlt : l = tgt
          · exact hlt ▸ hxint
          · exfalso
            have hdisj : tgt.Disjoint l :=
              List.Pairwise.forall (fun _ _ hd => hd.symm) hpair hmem hlc
                (fun heq => hlt heq.symm)
            exact hdisj hxt ((List.tail_sublist l).subset hxint)
        · intro hxt
          exact (List.tail_sublist tgt).subset hxt
      rw [hcong, ih (cols.map List.tail) tgt.tail (by omega) htmem hndt]
      cases tgt <;> simp

theorem rrColumns_filter_eq {cols : List (List String)} {tgt : List String}
    (hmem : tgt ∈ cols) (hnd : cols.flatten.Nodup) :
    (rrColumns cols).filter (fun x => decide (x ∈ tgt)) = tgt :=
  rrColumnsF_filter_eq (maxLen cols) cols tgt (Nat.le_refl _) hmem hnd

/-- Claim C1, counterexample: The claim says the merged candidate list is
deduplicated "even when the same URL appears in several sources' lists".
The merge loop of `find_handler` (superbot.py lines 420-433) performs no
deduplication at all: with two sources both returning the single URL "a",
the merged output contains "a" twice. -/
theorem merge_dedup_counterexample :
    mergeLinks [["a"], ["a"]] = ["a", "a"] ∧
      ¬ (mergeLinks [["a"], ["a"]]).Nodup := by
  refine ⟨rfl, ?_⟩
  decide

/-- Claim C1, amended: The merge performs no deduplication; the merged
candidate list is duplicate-free exactly when the per-source lists are
globally duplicate-free: if no URL occurs twice across (or within) the
per-source lists, then no URL occurs twice in the merged output. -/
theorem merge_nodup_of_flatten_nodup (cols : List (List String))
    (h : cols.flatten.Nodup) : (mergeLinks cols).Nodup := by
  rw [mergeLinks_eq]
  exact List.Nodup.sublist (List.take_sublist 5 _)
    ((rrColumns_perm_flatten cols).nodup_iff.mpr h)

theorem merge_nodup_of_flatten_nodup_witness :
    ([["a"], ["b"]] : List (List String)).flatten.Nodup ∧
      (mergeLinks [["a"], ["b"]]).Nodup :=
  ⟨by decide, merge_nodup_of_flatten_nodup [["a"], ["b"]] (by decide)⟩

/-- Claim C2: For per-source lists with pairwise-distinct URLs the merge
output (1) has length `min 5 total`, (2) restricted to any single source's
URLs is a prefix (`take k`) of that source's list, so each source's
internal order is preserved, (3) equals the cap-5 truncation of the
column-major round-robin interleave (one item per source per pass), and
(4) on three sources of two links each yields
`[s1[0], s2[0], s3[0], s1[1], s2[1]]`. -/
theorem merge_round_robin_spec (cols : List (List String))
    (h : cols.flatten.Nodup) :
    (mergeLinks cols).length = min 5 (cols.map List.length).sum ∧
    (∀ tgt ∈ cols, ∃ k,
      (mergeLinks cols).filter (fun x => decide (x ∈ tgt)) = tgt.take k) ∧
    mergeLinks cols = (rrColumns cols).take 5 ∧
    (∀ a₁ a₂ b₁ b₂ c₁ c₂ : String,
      mergeLinks [[a₁, a₂], [b₁, b₂], [c₁, c₂]] = [a₁, b₁, c₁, a₂, b₂]) := by
  refine ⟨mergeLinks_length cols, ?_, mergeLinks_eq cols, ?_⟩
  · intro tgt hmem
    obtain ⟨k, hk⟩ :=
      filter_take_exists (fun x => decide (x ∈ tgt)) (rrColumns cols) 5
    refine ⟨k, ?_⟩
    rw [mergeLinks_eq, hk, rrColumns_filter_eq hmem h]
  · intro a₁ a₂ b₁ b₂ c₁ c₂
    rfl

theorem merge_round_robin_spec_witness :
    ([["a"], ["b", "c"]] : List (List String)).flatten.Nodup ∧
      (mergeLinks [["a"], ["b", "c"]]).length =
        min 5 ([["a"], ["b", "c"]].map List.length).sum :=
  ⟨by decide, (merge_round_robin_spec [["a"], ["b", "c"]] (by decide)).1⟩

/-! ### Subscription sweep (`check_subscriptions`, superbot.py lines 234-253) -/

/-- `all_links = [link for sublist in site_results for link in sublist]`
(superbot.py line 245): the sweep flattens the per-source lists in source
order. -/
def sweepAllLinks (siteResults : List (List String)) : List String :=
  siteResults.flatten

/-- The link list put into the notification message:
`"\n".join(all_links[:5])` (superbot.py line 249). -/
def sweepLinks (siteResults : List (List String)) : List String :=
  (sweepAllLinks siteResults).take 5

/-- Claim C8, counterexample: The sweep does not run the Round-Robin Merge:
with three sources of two links each it reports the first five links of the
plain concatenation, not the interleave produced for interactive queries. -/
theorem sweep_not_round_robin_counterexample :
    sweepLinks [["a1", "a2"], ["b1", "b2"], ["c1", "c2"]] =
        ["a1", "a2", "b1", "b2", "c1"] ∧
      mergeLinks [["a1", "a2"], ["b1", "b2"], ["c1", "c2"]] =
        ["a1", "b1", "c1", "a2", "b2"] ∧
      sweepLinks [["a1", "a2"], ["b1", "b2"], ["c1", "c2"]] ≠
        mergeLinks [["a1", "a2"], ["b1", "b2"], ["c1", "c2"]] := by
  refine ⟨rfl, rfl, ?_⟩
  decide

/-- Claim C8, amended: The sweep reports the first 5 links of the per-source
lists concatenated in source order (not the round-robin interleave used by
`find_handler`); whenever at most 5 links are available in total, the
reported links coincide with the interactive merge up to ordering. -/
theorem sweep_links_amended (cols : List (List String))
    (h : cols.flatten.length ≤ 5) :
    (sweepLinks cols).Perm (mergeLinks cols) := by
  unfold sweepLinks sweepAllLinks
  rw [List.take_of_length_le h, mergeLinks_eq,
    List.take_of_length_le
      (by rw [(rrColumns_perm_flatten cols).length_eq]; exact h)]
  exact (rrColumns_perm_flatten cols).symm

theorem sweep_links_amended_witness :
    ([["a"], ["b"]] : List (List String)).flatten.length ≤ 5 ∧
      (sweepLinks [["a"], ["b"]]).Perm (mergeLinks [["a"], ["b"]]) :=
  ⟨by decide, sweep_links_amended [["a"], ["b"]] (by decide)⟩

/-! ### Extractive summarizer (`summarize_texts`, superbot.py lines 344-357) -/

/-- Terminal punctuation recognized by the sentence-splitting pattern
`(?<=[.!?]) +`. -/
def isTermPunct (c : Char) : Bool := c == '.' || c == '!' || c == '?'

/-- Whether the previously consumed character (head of the reversed
accumulator) is terminal punctuation. -/
def headPunct : List Char → Bool
  | [] => false
  | c :: _ => isTermPunct c

/-- Character-level rendering of `re.split(r'(?<=[.!?]) +', txt)`
(superbot.py line 348): the string is cut at every maximal run of spaces
immediately preceded by `.`, `!` or `?`, and the space run itself is
consumed.  In normal mode (`false`) the second argument is the current
segment, reversed; in space-consuming mode (`true`) it is the finished
segment awaiting emission. -/
def splitGo : List Char → List Char → Bool → List (List Char)
  | [], seg, true => [seg, []]
  | [], acc, false => [acc.reverse]
  | c :: rest, seg, true =>
    if c == ' ' then splitGo rest seg true
    else seg :: splitGo rest [c] false
  | c :: rest, acc, false =>
    if c == ' ' && headPunct acc then splitGo rest acc.reverse true
    else splitGo rest (c :: acc) false

/-- `re.split(r'(?<=[.!?]) +', txt)`. -/
def splitSentences (s : String) : List String :=
  (splitGo s.toList [] false).map fun cs => String.mk cs

/-- Python `str.split()` with no argument: split on whitespace runs,
dropping empty pieces.  `acc` is the current word, reversed. -/
def wordsAux : List Char → List Char → List (List Char)
  | [], acc => if acc.isEmpty then [] else [acc.reverse]
  | c :: rest, acc =>
    if c.isWhitespace then
      if acc.isEmpty then wordsAux rest []
      else acc.reverse :: wordsAux rest []
    else wordsAux rest (c :: acc)

def wordsOf (s : String) : List String :=
  (wordsAux s.toList []).map fun cs => String.mk cs

/-- Python `str.lower()` (ASCII case mapping). -/
def lowerString (s : String) : String :=
  String.mk (s.toList.map Char.toLower)

/-- Python `str.strip()`: drop whitespace from both ends. -/
def pyStrip (s : String) : String :=
  String.mk
    (((s.toList.dropWhile Char.isWhitespace).reverse.dropWhile
      Char.isWhitespace).reverse)

/-- The `sentences` list accumulated over all texts
(superbot.py lines 346-349). -/
def sentencesOf (texts : List String) : List String :=
  texts.flatMap splitSentences

/-- The token multiset underlying
`word_freq = Counter(" ".join(sentences).lower().split())`
(superbot.py line 354); `word_freq[w]` is `(tokensOf texts).count w`. -/
def tokensOf (texts : List String) : List String :=
  wordsOf (lowerString (String.intercalate " " (sentencesOf texts)))

/-- The sort key of superbot.py line 355:
`sum(word_freq.get(w, 0) for w in s.lower().split())`. -/
def sentenceScore (tokens : List String) (s : String) : Nat :=
  ((wordsOf (lowerString s)).map fun w => tokens.count w).sum

def sentinelSummary : String := "Could not generate a short summary."

/-- `summarize_texts` (superbot.py lines 344-357).  Python's
`sorted(sentences, key=score, reverse=True)` is a stable descending sort,
whose output is the same list as a stable insertion sort with the
comparison "score of the left is at least the score of the right". -/
def summarize_texts (texts : List String) (max_sentences : Nat) : String :=
  if (sentencesOf texts).isEmpty then sentinelSummary
  else
    pyStrip (String.intercalate " "
      (((sentencesOf texts).insertionSort fun a b =>
        sentenceScore (tokensOf texts) b ≤ sentenceScore (tokensOf texts) a
        ).take max_sentences))

/-- `re.split` always produces at least one segment, so the `sentences`
list is empty only when `texts` itself is empty. -/
theorem splitGo_ne_nil :
    ∀ (l seg : List Char) (mode : Bool), splitGo l seg mode ≠ [] := by
  intro l
  induction l with
  | nil =>
    intro seg mode
    cases mode <;> simp [splitGo]
  | cons c rest ih =>
    intro seg mode
    cases mode with
    | true =>
      show (if c == ' ' then splitGo rest seg true
            else seg :: splitGo rest [c] false) ≠ []
      by_cases hc : (c == ' ') = true
      · rw [if_pos hc]; exact ih seg true
      · rw [if_neg hc]; simp
    | false =>
      show (if c == ' ' && headPunct seg then splitGo rest seg.reverse true
            else splitGo rest (c :: seg) false) ≠ []
      by_cases hc : (c == ' ' && headPunct seg) = true
      · rw [if_pos hc]; exact ih seg.reverse true
      · rw [if_neg hc]; exact ih (c :: seg) false

theorem splitSentences_ne_nil (s : String) : splitSentences s ≠ [] := by
  unfold splitSentences
  intro h
  exact splitGo_ne_nil s.toList [] false (List.map_eq_nil_iff.mp h)

theorem sentencesOf_eq_nil_iff (texts : List String) :
    sentencesOf texts = [] ↔ texts = [] := by
  constructor
  · intro h
    cases texts with
    | nil => rfl
    | cons t rest =>
      exfalso
      unfold sentencesOf at h
      rw [List.flatMap_cons] at h
      exact splitSentences_ne_nil t (List.append_eq_nil.mp h).1
  · rintro rfl; rfl

/-- Claim C9: `summarize_texts` returns the fixed sentinel exactly when no
sentences are produced, which happens exactly when the input list is
empty; otherwise it joins with single spaces (then strips) the first
`max_sentences` entries of a list that is a permutation of all extracted
sentences sorted by descending score, where the score of a sentence is the
sum of the global frequencies of its lowercased tokens
(`sentenceScore (tokensOf texts)`). -/
theorem summarize_texts_spec (texts : List String) (m : Nat) :
    (texts = [] → summarize_texts texts m = sentinelSummary) ∧
    (sentencesOf texts = [] ↔ texts = []) ∧
    (texts ≠ [] → ∃ ranked : List String,
      ranked.Perm (sentencesOf texts) ∧
      List.Sorted (fun a b =>
        sentenceScore (tokensOf texts) b ≤
          sentenceScore (tokensOf texts) a) ranked ∧
      (ranked.take m).length ≤ m ∧
      summarize_texts texts m =
        pyStrip (String.intercalate " " (ranked.take m))) := by
  refine ⟨?_, sentencesOf_eq_nil_iff texts, ?_⟩
  · rintro rfl; rfl
  · intro hne
    have hsne : sentencesOf texts ≠ [] :=
      fun h => hne ((sentencesOf_eq_nil_iff texts).mp h)
    have hie : (sentencesOf texts).isEmpty = false :=
      List.isEmpty_eq_false.mpr hsne
    refine ⟨(sentencesOf texts).insertionSort fun a b =>
        sentenceScore (tokensOf texts) b ≤ sentenceScore (tokensOf texts) a,
      List.perm_insertionSort _ _, ?_, List.length_take_le _ _, ?_⟩
    · haveI : IsTotal String (fun a b =>
          sentenceScore (tokensOf texts) b ≤
            sentenceScore (tokensOf texts) a) :=
        ⟨fun _ _ => Nat.le_total _ _⟩
      haveI : IsTrans String (fun a b =>
          sentenceScore (tokensOf texts) b ≤
            sentenceScore (tokensOf texts) a) :=
        ⟨fun _ _ _ hab hbc => Nat.le_trans hbc hab⟩
      exact List.sorted_insertionSort _ _
    · unfold summarize_texts
      rw [hie]
      simp

/-! ### AI summarizer (`get_ai_summary`, superbot.py lines 307-342) -/

/-- Outcome of the external OpenAI chat-completion call as observed by
`get_ai_summary`: a returned list of choices (each with optional message
content), or a raised `OpenAIError` / `ValueError` / `TypeError`. -/
inductive AIResult where
  | ok (choices : List (Option String))
  | err
deriving DecidableEq

/-- `get_ai_summary` (superbot.py lines 307-342).  The prompt construction
and the 12000-character truncation (lines 313-334) only shape the request
sent to the external service, whose behavior is the `svc` input.  With no
key the basic summarizer is used; on a service exception the function
returns a fixed message (it does *not* call `summarize_texts`); an empty
choice list yields another fixed message; otherwise the first choice's
content (empty if falsy) is stripped and returned. -/
def get_ai_summary (apiKey : Option String) (svc : AIResult)
    (texts : List String) : String :=
  match apiKey with
  | none => summarize_texts texts 3
  | some _ =>
    match svc with
    | .err => "Failed to generate AI summary. Falling back to basic method."
    | .ok [] => "Could not generate an AI summary."
    | .ok (c :: _) => (c.getD "").trim

/-- Claim C3, code bug: The spec (and the code's own message text) promise a
fall back to the extractive strategy on a service error, but with a
configured key and a failing service call `get_ai_summary` returns the
fixed error string instead of the `summarize_texts` output for the same
texts. -/
theorem ai_error_returns_marker_not_fallback :
    get_ai_summary (some "sk-test") .err ["Alpha beta. Alpha gamma."] =
        "Failed to generate AI summary. Falling back to basic method." ∧
      summarize_texts ["Alpha beta. Alpha gamma."] 3 =
        "Alpha beta. Alpha gamma." ∧
      get_ai_summary (some "sk-test") .err ["Alpha beta. Alpha gamma."] ≠
        summarize_texts ["Alpha beta. Alpha gamma."] 3 := by
  refine ⟨rfl, by decide, by decide⟩

theorem summarize_texts_spec_witness :
    summarize_texts [] 3 = sentinelSummary ∧
      (∃ ranked : List String,
        ranked.Perm (sentencesOf ["Cats are great. Dogs bark. Cats cats cats."]) ∧
        List.Sorted (fun a b =>
          sentenceScore (tokensOf ["Cats are great. Dogs bark. Cats cats cats."]) b ≤
            sentenceScore (tokensOf ["Cats are great. Dogs bark. Cats cats cats."]) a)
          ranked ∧
        (ranked.take 2).length ≤ 2 ∧
        summarize_texts ["Cats are great. Dogs bark. Cats cats cats."] 2 =
          pyStrip (String.intercalate " " (ranked.take 2))) :=
  ⟨(summarize_texts_spec [] 3).1 rfl,
   (summarize_texts_spec ["Cats are great. Dogs bark. Cats cats cats."] 2).2.2
     (by simp)⟩

/-! ### Response cache (`save_cache` / `load_cache`, superbot.py lines 81-109) -/

/-- A row of the `cache` table: `(query, response, created_at)`.
`created_at` abstracts the `datetime.now()` timestamp in minutes on a
monotone clock; the stored `"%Y-%m-%d %H:%M:%S.%f"` strings order
chronologically, so `ORDER BY created_at DESC` is ordering by time. -/
structure CacheRow where
  query : String
  response : String
  created_at : Nat
deriving DecidableEq

/-- `save_cache` (superbot.py lines 81-90):
`INSERT INTO cache VALUES (?, ?, ?)` with `datetime.now()` — append-only,
never updates or deletes. -/
def save_cache (db : List CacheRow) (q response : String) (now : Nat) :
    List CacheRow :=
  db ++ [⟨q, response, now⟩]

/-- `SELECT response, created_at FROM cache WHERE query = ?
ORDER BY created_at DESC LIMIT 1` (superbot.py lines 96-99): the matching
row with the greatest `created_at`; on ties the first-stored row, matching
SQLite's stable scan of equal keys. -/
def cacheLookup (db : List CacheRow) (q : String) : Option CacheRow :=
  (db.filter fun row => row.query == q).foldl
    (fun best row =>
      match best with
      | none => some row
      | some b => if b.created_at < row.created_at then some row else some b)
    none

/-- `load_cache` (superbot.py lines 92-109): return the most recent
matching row's response if `now - created_at < ttl_minutes`, else `None`.
The table is only read — the stale row stays in place (the function takes
`db` and returns no modified table). -/
def load_cache (db : List CacheRow) (q : String) (ttl_minutes now : Nat) :
    Option String :=
  match cacheLookup db q with
  | none => none
  | some row =>
    if now - row.created_at < ttl_minutes then some row.response else none

theorem cacheLookup_mem {db : List CacheRow} {q : String} {b : CacheRow}
    (h : cacheLookup db q = some b) : b ∈ db ∧ b.query = q := by
  have key : ∀ (l : List CacheRow) (acc : Option CacheRow),
      l.foldl
        (fun best row =>
          match best with
          | none => some row
          | some b => if b.created_at < row.created_at then some row
                      else some b)
        acc = some b →
      acc = some b ∨ b ∈ l := by
    intro l
    induction l with
    | nil => intro acc hacc; exact Or.inl hacc
    | cons x xs ih =>
      intro acc hacc
      rcases ih _ hacc with hstep | hmem
      · cases acc with
        | none =>
          have hxb : x = b := Option.some.inj hstep
          exact Or.inr (by rw [← hxb]; exact List.mem_cons_self x xs)
        | some a =>
          have hstep' :
              (if a.created_at < x.created_at then some x else some a) =
                some b := hstep
          by_cases hlt : a.created_at < x.created_at
          · rw [if_pos hlt] at hstep'
            have hxb : x = b := Option.some.inj hstep'
            exact Or.inr (by rw [← hxb]; exact List.mem_cons_self x xs)
          · rw [if_neg hlt] at hstep'
            exact Or.inl hstep'
      · exact Or.inr (List.mem_cons_of_mem x hmem)
  have h' := key (db.filter fun row => row.query == q) none h
  rcases h' with hbad | hmem
  · cases hbad
  · have := List.mem_filter.mp hmem
    exact ⟨this.1, by simpa using this.2⟩

/-- A freshly appended row for `q` newer than every existing row for `q`
is what the lookup returns. -/
theorem cacheLookup_save_latest {db : List CacheRow} {q r : String} {t : Nat}
    (h : ∀ row ∈ db, row.query = q → row.created_at < t) :
    cacheLookup (save_cache db q r t) q = some ⟨q, r, t⟩ := by
  unfold save_cache cacheLookup
  rw [List.filter_append]
  have hone : List.filter (fun row => row.query == q)
      [(⟨q, r, t⟩ : CacheRow)] = [⟨q, r, t⟩] := by simp
  rw [hone, List.foldl_append]
  cases hprev : (db.filter fun row => row.query == q).foldl
      (fun best row =>
        match best with
        | none => some row
        | some b => if b.created_at < row.created_at then some row
                    else some b)
      none with
  | none => rfl
  | some b =>
    have hb := @cacheLookup_mem db q b hprev
    have hbt : b.created_at < t := h b hb.1 hb.2
    simp [hbt]

/-- Claim C4: Response-cache semantics with the default 60-minute TTL on a
monotone clock: (1) a read within the TTL after a write returns the
written response; (2) when the TTL has elapsed for every matching row
(in particular for the most recent one), the read returns `none` — and
`load_cache` only reads the table, so the stale row stays in place;
(3) after two writes for the same query, a fresh read returns the
most recently written value. -/
theorem cache_ttl_spec :
    (∀ (db : List CacheRow) (q r : String) (t tread : Nat),
      (∀ row ∈ db, row.query = q → row.created_at < t) →
      tread - t < 60 →
      load_cache (save_cache db q r t) q 60 tread = some r) ∧
    (∀ (db : List CacheRow) (q : String) (tread : Nat),
      (∀ row ∈ db, row.query = q → 60 ≤ tread - row.created_at) →
      load_cache db q 60 tread = none) ∧
    (∀ (db : List CacheRow) (q r₁ r₂ : String) (t₁ t₂ tread : Nat),
      (∀ row ∈ db, row.query = q → row.created_at < t₁) →
      t₁ < t₂ → tread - t₂ < 60 →
      load_cache (save_cache (save_cache db q r₁ t₁) q r₂ t₂) q 60 tread =
        some r₂) := by
  have hget : ∀ (db : List CacheRow) (q r : String) (t tread : Nat),
      (∀ row ∈ db, row.query = q → row.created_at < t) →
      tread - t < 60 →
      load_cache (save_cache db q r t) q 60 tread = some r := by
    intro db q r t tread h hfresh
    unfold load_cache
    rw [cacheLookup_save_latest h]
    simp [hfresh]
  refine ⟨hget, ?_, ?_⟩
  · intro db q tread h
    unfold load_cache
    cases hlook : cacheLookup db q with
    | none => rfl
    | some row =>
      have hrow := cacheLookup_mem hlook
      have hstale := h row hrow.1 hrow.2
      show (if tread - row.created_at < 60 then some row.response else none) =
        none
      rw [if_neg (by omega)]
  · intro db q r₁ r₂ t₁ t₂ tread h h12 hfresh
    apply hget
    · intro row hrow hq
      rcases List.mem_append.mp hrow with hdb | hnew
      · exact Nat.lt_trans (h row hdb hq) h12
      · have : row = ⟨q, r₁, t₁⟩ := by simpa using hnew
        rw [this]
        exact h12
    · exact hfresh

theorem cache_ttl_spec_witness :
    load_cache (save_cache [] "q" "r" 0) "q" 60 59 = some "r" ∧
      load_cache [⟨"q", "r", 0⟩] "q" 60 60 = none ∧
      load_cache (save_cache (save_cache [] "q" "r1" 1) "q" "r2" 2)
        "q" 60 3 = some "r2" :=
  ⟨cache_ttl_spec.1 [] "q" "r" 0 59 (by simp) (by omega),
   cache_ttl_spec.2.1 [⟨"q", "r", 0⟩] "q" 60 (by decide),
   cache_ttl_spec.2.2 [] "q" "r1" "r2" 1 2 3 (by simp) (by omega) (by omega)⟩

/-! ### User site lists (`reset_user_sites`, superbot.py lines 147-155) -/

/-- A row of the `user_sites` table. -/
structure SiteRow where
  user_id : Int
  site_url : String
deriving DecidableEq

/-- The `default_sites` literal of `reset_user_sites`
(superbot.py line 152). -/
def default_sites : List String :=
  ["https://realpython.com/search/?q=", "https://medium.com/search?q=",
   "https://stackoverflow.com/search?q="]

/-- `reset_user_sites` (superbot.py lines 147-155):
`DELETE FROM user_sites WHERE user_id = ?` then an `executemany` insert of
the three defaults for that user; the surviving rows keep their stored
order and the inserts are appended. -/
def reset_user_sites (db : List SiteRow) (uid : Int) : List SiteRow :=
  (db.filter fun r => !(r.user_id == uid)) ++
    default_sites.map fun s => ⟨uid, s⟩

/-- `SELECT site_url FROM user_sites WHERE user_id = ?`
(superbot.py line 115), i.e. the persisted site list of one user. -/
def user_sites_of (db : List SiteRow) (uid : Int) : List String :=
  (db.filter fun r => r.user_id == uid).map fun r => r.site_url

/-- Claim C10: After `reset_user_sites u`, the persisted site list of `u` is
exactly the three built-in search URLs (realpython, medium, stackoverflow,
in that order), and the rows of every other subscriber are unchanged. -/
theorem reset_user_sites_spec (db : List SiteRow) (uid : Int) :
    user_sites_of (reset_user_sites db uid) uid = default_sites ∧
    (∀ v : Int, v ≠ uid →
      (reset_user_sites db uid).filter (fun r => r.user_id == v) =
        db.filter fun r => r.user_id == v) := by
  constructor
  · unfold user_sites_of reset_user_sites
    rw [List.filter_append]
    have h1 : (db.filter fun r => !(r.user_id == uid)).filter
        (fun r => r.user_id == uid) = [] := by
      apply List.filter_eq_nil_iff.mpr
      intro a ha
      have h := (List.mem_filter.mp ha).2
      simp only [Bool.not_eq_true', beq_eq_false_iff_ne] at h
      simp [h]
    have h2 : (default_sites.map fun s => (⟨uid, s⟩ : SiteRow)).filter
        (fun r => r.user_id == uid) =
          default_sites.map fun s => ⟨uid, s⟩ := by
      apply List.filter_eq_self.mpr
      intro a ha
      obtain ⟨s, _, rfl⟩ := List.mem_map.mp ha
      simp
    rw [h1, h2, List.nil_append, List.map_map]
    have hid : ((fun r => r.site_url) ∘ fun s => (⟨uid, s⟩ : SiteRow)) =
        @id String := rfl
    rw [hid, List.map_id]
  · intro v hv
    unfold reset_user_sites
    rw [List.filter_append]
    have h2 : (default_sites.map fun s => (⟨uid, s⟩ : SiteRow)).filter
        (fun r => r.user_id == v) = [] := by
      apply List.filter_eq_nil_iff.mpr
      intro a ha
      obtain ⟨s, _, rfl⟩ := List.mem_map.mp ha
      simp only [beq_iff_eq]
      exact fun h => hv h.symm
    rw [h2, List.append_nil, List.filter_filter]
    apply List.filter_congr
    intro a _
    by_cases hav : a.user_id = v
    · simp [hav, hv]
    · simp [hav]

theorem reset_user_sites_spec_witness :
    user_sites_of (reset_user_sites [⟨7, "https://x.example"⟩] 1) 1 =
        default_sites ∧
      (7 : Int) ≠ 1 ∧
      (reset_user_sites [⟨7, "https://x.example"⟩] 1).filter
          (fun r => r.user_id == (7 : Int)) =
        ([⟨7, "https://x.example"⟩] : List SiteRow).filter
          (fun r => r.user_id == (7 : Int)) :=
  ⟨(reset_user_sites_spec [⟨7, "https://x.example"⟩] 1).1,
   by decide,
   (reset_user_sites_spec [⟨7, "https://x.example"⟩] 1).2 7 (by decide)⟩

/-! ### Article extraction (`fetch_article`, superbot.py lines 260-271) -/

/-- Exception classes relevant to `fetch_article`'s
`except (ValueError, IOError)` clause: an exception from the newspaper3k
calls is a `ValueError`, an `IOError`, or some other class (for example
newspaper3k's own `ArticleException`, which subclasses `Exception`
directly and is raised by `parse()` after a failed download and by
`Article(url)` on a malformed URL). -/
inductive PyExc where
  | valueError
  | ioError
  | other
deriving DecidableEq

/-- Behavior of the `Article(url)` / `download()` / `parse()` sequence for
one URL: it yields a title and a text, or raises. -/
inductive FetchOutcome where
  | ok (title text : String)
  | fail (e : PyExc)
deriving DecidableEq

/-- `fetch_article` (superbot.py lines 260-271): on success returns the
title and `text.strip().replace("\n", " ")` (a single-character replace is
a character map); `ValueError` and `IOError` are caught and yield
`(None, None)`; any other exception class propagates to the caller. -/
def fetch_article (o : FetchOutcome) :
    Except PyExc (Option String × Option String) :=
  match o with
  | .ok title text =>
    .ok (some title,
      some (String.mk ((pyStrip text).toList.map
        fun c => if c == '\n' then ' ' else c)))
  | .fail .valueError => .ok (none, none)
  | .fail .ioError => .ok (none, none)
  | .fail .other => .error .other

/-- `articles = await asyncio.gather(*article_tasks)` (superbot.py lines
439-440): all per-URL results in order; an uncaught per-URL exception is
re-raised by the batch. -/
def batchFetch :
    List FetchOutcome → Except PyExc (List (Option String × Option String))
  | [] => .ok []
  | o :: rest =>
    match fetch_article o, batchFetch rest with
    | .error e, _ => .error e
    | .ok _, .error e => .error e
    | .ok a, .ok as => .ok (a :: as)

/-- The failures that `fetch_article`'s except-clause converts to
`(None, None)`. -/
def isCaughtFail : FetchOutcome → Bool
  | .fail .valueError => true
  | .fail .ioError => true
  | _ => false

/-- Claim C7, counterexample: `fetch_article` catches only `ValueError` and
`IOError`: a per-URL failure raising any other exception class is not
turned into `(None, None)` but propagates, and `asyncio.gather` re-raises
it from the batch. -/
theorem fetch_article_raises_counterexample :
    fetch_article (.fail .other) = .error .other ∧
      fetch_article (.fail .other) ≠ .ok (none, none) ∧
      batchFetch [.fail .other] = .error .other := by
  refine ⟨rfl, by simp [fetch_article], rfl⟩

/-- Claim C7, amended: Restricted to the exception classes the code
actually catches: a per-URL failure raising `ValueError` or `IOError`
yields `(None, None)`; a batch of N URLs whose failures all raise caught
classes does not raise, returns N results in order, and exactly N − M of
them are non-empty, where M is the number of failed URLs. -/
theorem fetch_article_fault_tolerance (outs : List FetchOutcome)
    (h : ∀ o ∈ outs, o ≠ .fail .other) :
    (∀ o : FetchOutcome,
      (o = .fail .valueError ∨ o = .fail .ioError) →
      fetch_article o = .ok (none, none)) ∧
    ∃ results : List (Option String × Option String),
      batchFetch outs = .ok results ∧
      results.length = outs.length ∧
      (results.filter fun r =>
        decide (r ≠ ((none : Option String), (none : Option String)))).length =
        outs.length - (outs.filter isCaughtFail).length := by
  constructor
  · rintro o (rfl | rfl) <;> rfl
  · induction outs with
    | nil => exact ⟨[], rfl, rfl, rfl⟩
    | cons o rest ih =>
      obtain ⟨rs, hrs, hlen, hcount⟩ :=
        ih fun x hx => h x (List.mem_cons_of_mem _ hx)
      have hMle : (rest.filter isCaughtFail).length ≤ rest.length :=
        List.length_filter_le _ _
      cases o with
      | ok title text =>
        refine ⟨(some title,
            some (String.mk ((pyStrip text).toList.map
              fun c => if c == '\n' then ' ' else c))) :: rs, ?_, ?_, ?_⟩
        · show (match fetch_article (.ok title text), batchFetch rest with
            | .error e, _ => Except.error e
            | .ok _, .error e => Except.error e
            | .ok a, .ok as => Except.ok (a :: as)) = _
          rw [hrs]
          rfl
        · simp [hlen]
        · have hp : (fun r =>
              decide (r ≠ ((none : Option String), (none : Option String))))
              ((some title,
                some (String.mk ((pyStrip text).toList.map
                  fun c => if c == '\n' then ' ' else c))) :
                Option String × Option String) = true := by
            simp
          rw [List.filter_cons, if_pos hp]
          have hcf : isCaughtFail (.ok title text) = false := rfl
          rw [List.filter_cons, if_neg (by rw [hcf]; simp)]
          simp only [List.length_cons, hcount]
          omega
      | fail e =>
        cases e with
        | other => exact absurd rfl (h _ (List.mem_cons_self _ _))
        | valueError =>
          refine ⟨(none, none) :: rs, ?_, ?_, ?_⟩
          · show (match fetch_article (.fail .valueError), batchFetch rest with
              | .error e, _ => Except.error e
              | .ok _, .error e => Except.error e
              | .ok a, .ok as => Except.ok (a :: as)) = _
            rw [hrs]
            rfl
          · simp [hlen]
          · rw [List.filter_cons,
              if_neg (by simp : ¬ ((fun r => decide (r ≠ ((none : Option String),
                (none : Option String)))) ((none : Option String),
                  (none : Option String)) = true))]
            rw [List.filter_cons, if_pos (by rfl : isCaughtFail
              (.fail .valueError) = true)]
            simp only [List.length_cons, hcount]
            omega
        | ioError =>
          refine ⟨(none, none) :: rs, ?_, ?_, ?_⟩
          · show (match fetch_article (.fail .ioError), batchFetch rest with
              | .error e, _ => Except.error e
              | .ok _, .error e => Except.error e
              | .ok a, .ok as => Except.ok (a :: as)) = _
            rw [hrs]
            rfl
          · simp [hlen]
          · rw [List.filter_cons,
              if_neg (by simp : ¬ ((fun r => decide (r ≠ ((none : Option String),
                (none : Option String)))) ((none : Option String),
                  (none : Option String)) = true))]
            rw [List.filter_cons, if_pos (by rfl : isCaughtFail
              (.fail .ioError) = true)]
            simp only [List.length_cons, hcount]
            omega

/-! ### Site extraction (`search_links`, superbot.py lines 273-304) -/

/-- An anchor element of the parsed search-results page; `href` is its
(optional) `href` attribute. -/
structure Anchor where
  href : Option String
deriving DecidableEq

/-- The parsed search-results page, abstracted by the three anchor
selections the code performs: `soup.select(".card-title a")`,
`soup.find_all("a", href=re.compile(r"https://medium.com/.*"))` and
`soup.select(".s-post-summary--content .s-link")`. -/
structure ParsedPage where
  cardTitleAnchors : List Anchor
  mediumHrefAnchors : List Anchor
  postSummaryAnchors : List Anchor

/-- Result of the HTTP GET for the search page: a status code with a
parsed body, or an `aiohttp.ClientError`. -/
inductive HttpResult where
  | ok (status : Nat) (page : ParsedPage)
  | clientError

/-- Truthiness of `a.get("href")`: present and non-empty. -/
def truthyHref (a : Anchor) : Option String :=
  match a.href with
  | some h => if h == "" then none else some h
  | none => none

/-- `list(dict.fromkeys(...))`: deduplicate keeping first occurrences;
`seen` accumulates keys already emitted. -/
def dedupAux : List String → List String → List String
  | [], _ => []
  | x :: rest, seen =>
    if seen.contains x then dedupAux rest seen
    else x :: dedupAux rest (x :: seen)

def dedupKeepFirst (l : List String) : List String := dedupAux l []

/-- `search_links` (superbot.py lines 273-304).  Non-200 statuses and
transport errors yield `[]`; realpython takes the first five card-title
anchors, keeps those with a truthy href and prefixes the site origin;
medium takes the hrefs of the regex-matched anchors, strips the query
string (`.split("?")[0]`), deduplicates keeping first occurrences and
takes five; stackoverflow mirrors realpython with its own selector and
origin; any other source id reaches no branch and returns `[]`. -/
def search_links (site : String) (res : HttpResult) : List String :=
  match res with
  | .clientError => []
  | .ok status page =>
    if status != 200 then []
    else if site == "realpython" then
      ((page.cardTitleAnchors.take 5).filterMap truthyHref).map
        fun h => "https://realpython.com" ++ h
    else if site == "medium" then
      (dedupKeepFirst ((page.mediumHrefAnchors.filterMap truthyHref).map
        fun h => (h.splitOn "?").headD "")).take 5
    else if site == "stackoverflow" then
      ((page.postSummaryAnchors.take 5).filterMap truthyHref).map
        fun h => "https://stackoverflow.com" ++ h
    else []

/-- Claim C6: `search_links` (1) always returns at most 5 URLs; (2) returns
`[]` for any source id other than the three built-ins, without error; and
(3) skips every anchor lacking an href attribute: a page whose anchors all
lack hrefs yields no links for any source. -/
theorem search_links_spec :
    (∀ (site : String) (res : HttpResult),
      (search_links site res).length ≤ 5) ∧
    (∀ (site : String) (res : HttpResult),
      site ≠ "realpython" → site ≠ "medium" → site ≠ "stackoverflow" →
      search_links site res = []) ∧
    (∀ (site : String) (status : Nat) (page : ParsedPage),
      (∀ a ∈ page.cardTitleAnchors, a.href = none) →
      (∀ a ∈ page.mediumHrefAnchors, a.href = none) →
      (∀ a ∈ page.postSummaryAnchors, a.href = none) →
      search_links site (.ok status page) = []) := by
  refine ⟨?_, ?_, ?_⟩
  · intro site res
    cases res with
    | clientError => simp [search_links]
    | ok status page =>
      simp only [search_links]
      by_cases hs : (status != 200) = true
      · rw [if_pos hs]; simp
      · rw [if_neg hs]
        by_cases h1 : (site == "realpython") = true
        · rw [if_pos h1, List.length_map]
          exact Nat.le_trans (List.length_filterMap_le _ _)
            (List.length_take_le _ _)
        · rw [if_neg h1]
          by_cases h2 : (site == "medium") = true
          · rw [if_pos h2]
            exact List.length_take_le _ _
          · rw [if_neg h2]
            by_cases h3 : (site == "stackoverflow") = true
            · rw [if_pos h3, List.length_map]
              exact Nat.le_trans (List.length_filterMap_le _ _)
                (List.length_take_le _ _)
            · rw [if_neg h3]; simp
  · intro site res hr hm hs
    cases res with
    | clientError => rfl
    | ok status page =>
      simp only [search_links]
      by_cases h200 : (status != 200) = true
      · rw [if_pos h200]
      · rw [if_neg h200, if_neg (by simpa using hr),
          if_neg (by simpa using hm), if_neg (by simpa using hs)]
  · intro site status page hcard hmed hpost
    have hfm : ∀ (l : List Anchor), (∀ a ∈ l, a.href = none) →
        l.filterMap truthyHref = [] := by
      intro l hl
      apply List.filterMap_eq_nil_iff.mpr
      intro a ha
      rw [truthyHref, hl a ha]
    simp only [search_links]
    by_cases h200 : (status != 200) = true
    · rw [if_pos h200]
    · rw [if_neg h200]
      by_cases h1 : (site == "realpython") = true
      · rw [if_pos h1,
          hfm _ fun a ha => hcard a ((List.take_sublist 5 _).subset ha)]
        rfl
      · rw [if_neg h1]
        by_cases h2 : (site == "medium") = true
        · rw [if_pos h2, hfm _ hmed]
          rfl
        · rw [if_neg h2]
          by_cases h3 : (site == "stackoverflow") = true
          · rw [if_pos h3,
              hfm _ fun a ha => hpost a ((List.take_sublist 5 _).subset ha)]
            rfl
          · rw [if_neg h3]

theorem search_links_spec_witness :
    (search_links "realpython" .clientError).length ≤ 5 ∧
      ("x.example" : String) ≠ "realpython" ∧
      ("x.example" : String) ≠ "medium" ∧
      ("x.example" : String) ≠ "stackoverflow" ∧
      search_links "x.example" (.ok 200 ⟨[], [], []⟩) = [] ∧
      (∀ a ∈ [(⟨none⟩ : Anchor)], a.href = none) ∧
      search_links "medium" (.ok 200 ⟨[⟨none⟩], [⟨none⟩], [⟨none⟩]⟩) = [] :=
  ⟨search_links_spec.1 "realpython" .clientError,
   by decide, by decide, by decide,
   search_links_spec.2.1 "x.example" (.ok 200 ⟨[], [], []⟩)
     (by decide) (by decide) (by decide),
   by decide,
   search_links_spec.2.2 "medium" 200 ⟨[⟨none⟩], [⟨none⟩], [⟨none⟩]⟩
     (by decide) (by decide) (by decide)⟩

theorem fetch_article_fault_tolerance_witness :
    (∀ o ∈ ([.ok "T" "body", .fail .valueError, .fail .ioError] :
        List FetchOutcome), o ≠ .fail .other) ∧
      ∃ results : List (Option String × Option String),
        batchFetch [.ok "T" "body", .fail .valueError, .fail .ioError] =
          .ok results ∧
        results.length = 3 ∧
        (results.filter fun r =>
          decide (r ≠ ((none : Option String),
            (none : Option String)))).length =
          3 - (([.ok "T" "body", .fail .valueError, .fail .ioError] :
            List FetchOutcome).filter isCaughtFail).length :=
  ⟨by decide,
   (fetch_article_fault_tolerance
     [.ok "T" "body", .fail .valueError, .fail .ioError] (by decide)).2⟩

/-! ### The find pipeline (`find_handler`, superbot.py lines 400-474) -/

/-- Terminal outcomes of one `/find` invocation, in source order: the
usage reply for a missing/empty query (lines 403-407), the cached reply
(lines 409-412), the "Could not find any articles." edit (lines 435-437),
an uncaught exception from the article fetch (lines 439-440), the
"Could not extract content from the pages." edit (lines 450-452), and the
fully rendered response (lines 456-472). -/
inductive FindOutcome where
  | emptyQuery
  | cachedReply (text : String)
  | noArticlesFound
  | raised (e : PyExc)
  | noContentExtracted
  | success (response : String)
deriving DecidableEq

/-- Truthiness of `title` / `text` in `if title and text:`
(superbot.py line 445): present and non-empty. -/
def truthyStr : Option String → Bool
  | none => false
  | some s => !(s == "")

/-- One key-ideas entry (superbot.py lines 446-447): the title, a
30-word snippet (`" ".join(text.split()[:30])`) and the source link. -/
def mkIdea (title text link : String) : String :=
  "*" ++ title ++ "*:\n" ++
    String.intercalate " " ((wordsOf text).take 30) ++
    "... [Read](" ++ link ++ ")"

/-- The rendered response (superbot.py lines 456-458). -/
def renderResponse (q : String) (ideas : List String) (summary : String) :
    String :=
  "🔎 *Query:* " ++ q ++ "\n\n" ++
    "🔍 *Key Ideas:*\n" ++
    String.intercalate "\n\n" (ideas.map fun idea => "- " ++ idea) ++
    "\n\n" ++ "✅ *Conclusion:*\n" ++ summary

/-- `find_handler` (superbot.py lines 400-474) after the search fan-out.
Inputs: the cache table and clock, the query (`command.args`), the
per-source link lists returned by the fan-out, the per-URL behavior of
the article extraction, and the AI configuration/service behavior.
Returns the outcome together with the cache table after the invocation. -/
def find_handler (db : List CacheRow) (now : Nat) (query : Option String)
    (siteResults : List (List String)) (fetchEnv : String → FetchOutcome)
    (apiKey : Option String) (svc : AIResult) :
    FindOutcome × List CacheRow :=
  match query with
  | none => (.emptyQuery, db)
  | some q =>
    if q == "" then (.emptyQuery, db)
    else
      match load_cache db q 60 now with
      | some cached => (.cachedReply cached, db)
      | none =>
        if (mergeLinks siteResults).isEmpty then (.noArticlesFound, db)
        else
          match batchFetch ((mergeLinks siteResults).map fetchEnv) with
          | .error e => (.raised e, db)
          | .ok articles =>
            let pairs := articles.zip (mergeLinks siteResults)
            let ideas := pairs.filterMap fun p =>
              if truthyStr p.1.1 && truthyStr p.1.2 then
                some (mkIdea (p.1.1.getD "") (p.1.2.getD "") p.2)
              else none
            if ideas.isEmpty then (.noContentExtracted, db)
            else
              let texts := pairs.filterMap fun p =>
                if truthyStr p.1.1 && truthyStr p.1.2 then p.1.2 else none
              let summary :=
                match apiKey with
                | some _ => get_ai_summary apiKey svc texts
                | none => summarize_texts texts 3
              let response := renderResponse q ideas summary
              (.success response, save_cache db q response now)

/-- A batch whose every URL's extraction fails with a caught exception
returns `(None, None)` for every link. -/
theorem batchFetch_all_none {links : List String}
    {fetchEnv : String → FetchOutcome}
    (h : ∀ link ∈ links, fetch_article (fetchEnv link) = .ok (none, none)) :
    batchFetch (links.map fetchEnv) =
      .ok (links.map fun _ => ((none : Option String),
        (none : Option String))) := by
  induction links with
  | nil => rfl
  | cons l rest ih =>
    have hl := h l (List.mem_cons_self _ _)
    have hrest := ih fun x hx => h x (List.mem_cons_of_mem _ hx)
    show (match fetch_article (fetchEnv l), batchFetch (rest.map fetchEnv) with
      | .error e, _ => Except.error e
      | .ok _, .error e => Except.error e
      | .ok a, .ok as => Except.ok (a :: as)) = _
    rw [hl, hrest]
    rfl

/-- Claim C5: With a nonempty query missing from the cache: an empty merge
terminates with the "no results" outcome and an unchanged cache table; a
nonempty merge whose every article extraction fails terminates with the
"no content" outcome and an unchanged table; and the table changes only
when the outcome is a fully rendered success, in which case the change is
exactly one `save_cache` of the rendered response. -/
theorem find_handler_cache_writes (db : List CacheRow) (now : Nat)
    (q : String) (siteResults : List (List String))
    (fetchEnv : String → FetchOutcome) (apiKey : Option String)
    (svc : AIResult) (hq : q ≠ "")
    (hmiss : load_cache db q 60 now = none) :
    (mergeLinks siteResults = [] →
      find_handler db now (some q) siteResults fetchEnv apiKey svc =
        (.noArticlesFound, db)) ∧
    ((mergeLinks siteResults ≠ [] ∧
      ∀ link ∈ mergeLinks siteResults,
        fetch_article (fetchEnv link) = .ok (none, none)) →
      find_handler db now (some q) siteResults fetchEnv apiKey svc =
        (.noContentExtracted, db)) ∧
    (∀ (out : FindOutcome) (db' : List CacheRow),
      find_handler db now (some q) siteResults fetchEnv apiKey svc =
        (out, db') →
      db' = db ∨ ∃ resp, out = .success resp ∧
        db' = save_cache db q resp now) := by
  have hqb : ¬ ((q == "") = true) := by simp [hq]
  refine ⟨?_, ?_, ?_⟩
  · intro hmerge
    simp only [find_handler, if_neg hqb, hmiss, hmerge]
    rfl
  · rintro ⟨hne, hall⟩
    have hie : (mergeLinks siteResults).isEmpty = false :=
      List.isEmpty_eq_false.mpr hne
    have hbatch := batchFetch_all_none hall
    have hideas : List.filterMap
        (fun p =>
          if truthyStr p.1.1 && truthyStr p.1.2 then
            some (mkIdea (p.1.1.getD "") (p.1.2.getD "") p.2)
          else none)
        (((mergeLinks siteResults).map fun _ =>
          ((none : Option String), (none : Option String))).zip
            (mergeLinks siteResults)) = [] := by
      apply List.filterMap_eq_nil_iff.mpr
      intro p hp
      have hp1 := (List.of_mem_zip hp).1
      obtain ⟨a, _, hpa⟩ := List.mem_map.mp hp1
      rw [← hpa]
      rfl
    simp only [find_handler, if_neg hqb, hmiss, hie, hbatch, hideas]
    rfl
  · intro out db' heq
    simp only [find_handler, if_neg hqb, hmiss] at heq
    by_cases hie : (mergeLinks siteResults).isEmpty
    · rw [if_pos hie] at heq
      cases heq
      exact Or.inl rfl
    · rw [if_neg hie] at heq
      cases hbatch : batchFetch ((mergeLinks siteResults).map fetchEnv) with
      | error e =>
        rw [hbatch] at heq
        cases heq
        exact Or.inl rfl
      | ok articles =>
        rw [hbatch] at heq
        simp only at heq
        by_cases hid : (((articles.zip (mergeLinks siteResults)).filterMap
            fun p =>
              if truthyStr p.1.1 && truthyStr p.1.2 then
                some (mkIdea (p.1.1.getD "") (p.1.2.getD "") p.2)
              else none).isEmpty) = true
        · rw [if_pos hid] at heq
          cases heq
          exact Or.inl rfl
        · rw [if_neg hid] at heq
          cases heq
          exact Or.inr ⟨_, rfl, rfl⟩

theorem find_handler_cache_writes_witness :
    ("asyncio" : String) ≠ "" ∧
      load_cache [] "asyncio" 60 0 = none ∧
      find_handler [] 0 (some "asyncio") [] (fun _ => .fail .valueError)
        none .err = (.noArticlesFound, []) :=
  ⟨by decide, rfl,
   (find_handler_cache_writes [] 0 "asyncio" []
     (fun _ => .fail .valueError) none .err (by decide) rfl).1 rfl⟩

end SuperBot
